import Mathlib

/-!
Verification of `src/native/native_add.c`.

The C file defines two functions over `int32_t`:

  int32_t native_add(int32_t x, int32_t y) { return x + y; }

  int32_t heavy_computation(int32_t iterations) {
      int32_t sum = 0;
      for (int32_t i = 0; i < iterations; i++) {
          sum += i;
          if (i % 1000 == 0) { sum ^= i; }
      }
      if (iterations > 0) { usleep(2000 * 1000); }
      return sum;
  }

We embed `int32_t` values as `Int` together with an explicit two's-complement
wraparound normalisation `int32wrap` applied wherever the machine arithmetic
wraps.  C's `%` on `int32_t` truncates toward zero, which is `Int.tmod`.
Bitwise XOR of two `int32_t` values acts on the 32-bit two's-complement
representations, modelled by `xor32` via the unsigned representation.
The `usleep` call is modelled as an effect trace (`heavyRun`), and potential
dependence on process-wide state is modelled by explicit state threading
(`native_addS`, `heavy_computationS`).
-/

def INT32_MIN : Int := -(2 ^ 31)

def INT32_MAX : Int := 2 ^ 31 - 1

/-- Two's-complement wraparound of an integer into the `int32_t` range. -/
def int32wrap (n : Int) : Int := (n + 2 ^ 31) % 2 ^ 32 - 2 ^ 31

/-- The unsigned 32-bit representation of an `int32_t` value. -/
def toUInt32n (x : Int) : Nat := (x % 2 ^ 32).toNat

/-- Reinterpret an unsigned 32-bit representation as a signed `int32_t`. -/
def ofUInt32n (n : Nat) : Int := if n < 2 ^ 31 then (n : Int) else (n : Int) - 2 ^ 32

/-- Bitwise XOR of two `int32_t` values (C `^` on the two's-complement bits). -/
def xor32 (a b : Int) : Int := ofUInt32n (Nat.xor (toUInt32n a) (toUInt32n b))

/-- `native_add` from `src/native/native_add.c`: `return x + y;` with the
`int32_t` result wrapping on overflow. -/
def native_add (x y : Int) : Int := int32wrap (x + y)

/-- One iteration of the loop body of `heavy_computation`:
`sum += i; if (i % 1000 == 0) { sum ^= i; }`.
C's `%` on signed operands truncates toward zero (`Int.tmod`). -/
def heavyStep (sum i : Int) : Int :=
  let s := int32wrap (sum + i)
  if Int.tmod i 1000 = 0 then xor32 s i else s

/-- `heavy_computation` from `src/native/native_add.c`: the loop
`for (int32_t i = 0; i < iterations; i++)` runs the body for
`i = 0, 1, ..., iterations - 1` (no iterations when `iterations <= 0`),
and the final `sum` is returned.  The `usleep` side effect is modelled
separately in `heavyRun`. -/
def heavy_computation (iterations : Int) : Int :=
  (List.range iterations.toNat).foldl (fun sum i => heavyStep sum (Int.ofNat i)) 0

/-- Observable side effects of a call. -/
inductive Effect : Type
  | sleepMicros (n : Nat)
  deriving DecidableEq, Repr

/-- `heavy_computation` with its side effects made explicit as a trace,
in the order the C body performs them: the loop (which performs no effect),
then `if (iterations > 0) { usleep(2000 * 1000); }`, then the return. -/
def heavyRun (iterations : Int) : Int × List Effect :=
  let sum := heavy_computation iterations
  if iterations > 0 then (sum, [Effect.sleepMicros (2000 * 1000)]) else (sum, [])

/-- `native_add` threaded through an arbitrary ambient process state `σ`:
the C body references no global, so the translation reads and writes none. -/
def native_addS {S : Type} (x y : Int) (σ : S) : Int × S :=
  (native_add x y, σ)

/-- `heavy_computation` threaded through an arbitrary ambient process state
`σ`: the C body references no global, so the translation reads and writes
none. -/
def heavy_computationS {S : Type} (iterations : Int) (σ : S) : (Int × List Effect) × S :=
  (heavyRun iterations, σ)

/-- The loop indices at which the branch `if (i % 1000 == 0)` fires. -/
def xorSites (iterations : Int) : List Nat :=
  (List.range iterations.toNat).filter (fun i => Int.tmod (Int.ofNat i) 1000 == 0)

/-- The loop of `heavy_computation` transcribed from the spec's words:
"iterate a counter `i` from `0` to `iterations - 1`, accumulating `sum += i`
at each step using 32-bit signed wraparound arithmetic; whenever `i` is a
multiple of 1000 (including `i == 0`), additionally apply `sum ^= i`".
Stated as a recursion on the number of iterations performed. -/
def specLoop : Nat → Int
  | 0 => 0
  | k + 1 =>
      let s := int32wrap (specLoop k + k)
      if k % 1000 = 0 then xor32 s k else s

theorem range_foldl_succ (k : Nat) :
    (List.range (k + 1)).foldl (fun sum i => heavyStep sum (Int.ofNat i)) 0 =
      heavyStep ((List.range k).foldl (fun sum i => heavyStep sum (Int.ofNat i)) 0)
        (Int.ofNat k) := by
  rw [List.range_succ, List.foldl_append]
  rfl

theorem tmod_ofNat (m : Nat) : Int.tmod (Int.ofNat m) 1000 = Int.ofNat (m % 1000) :=
  rfl

theorem heavyStep_ofNat (s : Int) (k : Nat) :
    heavyStep s (Int.ofNat k) =
      if k % 1000 = 0 then xor32 (int32wrap (s + Int.ofNat k)) (Int.ofNat k)
      else int32wrap (s + Int.ofNat k) := by
  show (if Int.tmod (Int.ofNat k) 1000 = 0 then
          xor32 (int32wrap (s + Int.ofNat k)) (Int.ofNat k)
        else int32wrap (s + Int.ofNat k)) = _
  rw [tmod_ofNat]
  by_cases h : k % 1000 = 0
  · have h1 : Int.ofNat (k % 1000) = (0 : Int) := by rw [h]; rfl
    rw [if_pos h1, if_pos h]
  · have h1 : ¬Int.ofNat (k % 1000) = (0 : Int) := by
      intro hh
      exact h (Int.ofNat.inj hh)
    rw [if_neg h1, if_neg h]

theorem heavy_computation_eq_specLoop (k : Nat) :
    (List.range k).foldl (fun sum i => heavyStep sum (Int.ofNat i)) 0 = specLoop k := by
  induction k with
  | zero => rfl
  | succ n ih =>
      rw [range_foldl_succ, ih, heavyStep_ofNat]
      rfl

/-- C1: for `iterations > 0`, `heavy_computation` returns the value obtained
by iterating `i` from `0` to `iterations - 1`, at each step computing
`sum += i` with 32-bit signed wraparound and, exactly when `i` is a multiple
of 1000 (including `i = 0`), additionally applying `sum ^= i` after the
addition, starting from `sum = 0`. -/
theorem C1_heavy_computation_matches_spec_loop (iterations : Int)
    (h : 0 < iterations) :
    heavy_computation iterations = specLoop iterations.toNat := by
  exact heavy_computation_eq_specLoop iterations.toNat

/-- Witness for C1 at `iterations = 5`. -/
theorem C1_witness :
    (0 : Int) < 5 ∧ heavy_computation 5 = specLoop (5 : Int).toNat :=
  ⟨by decide, C1_heavy_computation_matches_spec_loop 5 (by decide)⟩

theorem int32wrap_eq_self (n : Int) (h1 : -(2 ^ 31) ≤ n) (h2 : n < 2 ^ 31) :
    int32wrap n = n := by
  unfold int32wrap
  omega

theorem ofUInt32n_toUInt32n (n : Int) : ofUInt32n (toUInt32n n) = int32wrap n := by
  unfold ofUInt32n toUInt32n int32wrap
  split <;> omega

/-- C2: `native_add(x, y)` equals `(x + y) mod 2^32` reinterpreted as a
signed 32-bit integer (two's-complement wraparound); in particular
`native_add(INT32_MAX, 1) = INT32_MIN`. -/
theorem C2_native_add_wraparound (x y : Int)
    (hx1 : INT32_MIN ≤ x) (hx2 : x ≤ INT32_MAX)
    (hy1 : INT32_MIN ≤ y) (hy2 : y ≤ INT32_MAX) :
    native_add x y = ofUInt32n ((toUInt32n x + toUInt32n y) % 2 ^ 32) ∧
      native_add INT32_MAX 1 = INT32_MIN := by
  constructor
  · have h : (toUInt32n x + toUInt32n y) % 2 ^ 32 = toUInt32n (x + y) := by
      unfold toUInt32n
      omega
    rw [h, ofUInt32n_toUInt32n]
    rfl
  · decide

/-- Witness for C2 at `x = INT32_MAX`, `y = 1`. -/
theorem C2_witness :
    native_add INT32_MAX 1 =
        ofUInt32n ((toUInt32n INT32_MAX + toUInt32n 1) % 2 ^ 32) ∧
      native_add INT32_MAX 1 = INT32_MIN :=
  ⟨(C2_native_add_wraparound INT32_MAX 1 (by decide) (by decide) (by decide)
      (by decide)).1,
    (C2_native_add_wraparound INT32_MAX 1 (by decide) (by decide) (by decide)
      (by decide)).2⟩

/-- C3: for every `iterations <= 0`, `heavy_computation` performs zero loop
iterations (the list of loop indices is empty) and returns 0. -/
theorem C3_nonpositive_returns_zero (iterations : Int) (h : iterations ≤ 0) :
    heavy_computation iterations = 0 ∧ List.range iterations.toNat = [] := by
  have hz : iterations.toNat = 0 := Int.toNat_of_nonpos h
  constructor
  · unfold heavy_computation
    rw [hz]
    rfl
  · rw [hz]
    rfl

/-- Witness for C3 at `iterations = -5`. -/
theorem C3_witness :
    heavy_computation (-5) = 0 ∧ List.range (-5 : Int).toNat = [] :=
  C3_nonpositive_returns_zero (-5) (by decide)

/-- C4: the effect trace of `heavy_computation` is exactly one sleep of
2000 * 1000 microseconds (2000 ms) when `iterations > 0` and empty
otherwise; it is emitted after the (effect-free) loop, its duration does not
depend on `iterations`, and no other effect occurs; the returned value is
the loop's sum either way. -/
theorem C4_sleep_gated_and_fixed (iterations : Int) :
    (heavyRun iterations).2 =
        (if iterations > 0 then [Effect.sleepMicros (2000 * 1000)] else []) ∧
      (heavyRun iterations).1 = heavy_computation iterations := by
  unfold heavyRun
  split <;> exact ⟨rfl, rfl⟩

/-- C5: `heavy_computation 1 = 0`: the single iteration has `i = 0`, so the
accumulator becomes `0 + 0` and then `0 ^^^ 0`, which is `0`. -/
theorem C5_heavy_computation_one : heavy_computation 1 = 0 := by decide

set_option maxRecDepth 8000 in
/-- C6: in `heavy_computation 2000` the XOR branch fires at exactly the loop
indices 0 and 1000, and the returned value equals the reference
step-by-step accumulation `specLoop` computed with the same step rule. -/
theorem C6_xor_sites_and_reference :
    xorSites 2000 = [0, 1000] ∧ heavy_computation 2000 = specLoop 2000 :=
  ⟨by decide, heavy_computation_eq_specLoop 2000⟩

/-- C7: both functions are deterministic and stateless: threaded through an
arbitrary ambient process state, their result does not depend on that state
(so two calls with identical inputs return identical outputs) and the state
is returned unchanged. -/
theorem C7_deterministic_stateless {S : Type} (x y iterations : Int) (σ σ' : S) :
    (native_addS x y σ).1 = (native_addS x y σ').1 ∧
      (native_addS x y σ).2 = σ ∧
      (heavy_computationS iterations σ).1 = (heavy_computationS iterations σ').1 ∧
      (heavy_computationS iterations σ).2 = σ :=
  ⟨rfl, rfl, rfl, rfl⟩

/-- The `int32_t` range invariant. -/
def inInt32Range (n : Int) : Prop := INT32_MIN ≤ n ∧ n ≤ INT32_MAX

theorem int32wrap_range (n : Int) : inInt32Range (int32wrap n) := by
  unfold inInt32Range int32wrap INT32_MIN INT32_MAX
  omega

theorem ofUInt32n_range (n : Nat) (h : n < 2 ^ 32) : inInt32Range (ofUInt32n n) := by
  unfold inInt32Range ofUInt32n INT32_MIN INT32_MAX
  split <;> omega

theorem toUInt32n_lt (x : Int) : toUInt32n x < 2 ^ 32 := by
  unfold toUInt32n
  omega

theorem xor32_range (a b : Int) : inInt32Range (xor32 a b) :=
  ofUInt32n_range _ (Nat.bitwise_lt (toUInt32n_lt a) (toUInt32n_lt b))

theorem heavyStep_range (s i : Int) : inInt32Range (heavyStep s i) := by
  show inInt32Range
    (if Int.tmod i 1000 = 0 then xor32 (int32wrap (s + i)) i else int32wrap (s + i))
  split
  · exact xor32_range _ _
  · exact int32wrap_range _

theorem foldl_heavyStep_range (l : List Nat) (s : Int) (hs : inInt32Range s) :
    inInt32Range (l.foldl (fun sum i => heavyStep sum (Int.ofNat i)) s) := by
  induction l generalizing s with
  | nil => exact hs
  | cons a t ih => exact ih _ (heavyStep_range _ _)

/-- C8: both functions are total over all `int32_t` inputs: for every
integers `x`, `y`, `iterations` (in particular every value in the `int32_t`
range, including `INT32_MAX`) the embedded functions are defined and the
result is again a valid `int32_t`; overflow during accumulation wraps rather
than faulting. -/
theorem C8_total_and_in_range (x y iterations : Int) :
    (INT32_MIN ≤ native_add x y ∧ native_add x y ≤ INT32_MAX) ∧
      (INT32_MIN ≤ heavy_computation iterations ∧
        heavy_computation iterations ≤ INT32_MAX) := by
  refine ⟨int32wrap_range (x + y), ?_⟩
  exact foldl_heavyStep_range (List.range iterations.toNat) 0 (by constructor <;> decide)

/-- Triangular numbers: `tri k = 0 + 1 + ... + (k - 1)`. -/
def tri : Nat → Nat
  | 0 => 0
  | k + 1 => tri k + k

theorem two_mul_tri (k : Nat) : 2 * tri k = k * (k - 1) := by
  induction k with
  | zero => rfl
  | succ n ih =>
      show 2 * (tri n + n) = (n + 1) * (n + 1 - 1)
      rw [Nat.add_sub_cancel, Nat.mul_add, ih]
      cases n with
      | zero => rfl
      | succ j =>
          rw [Nat.add_sub_cancel]
          ring

theorem tri_eq_div (k : Nat) : tri k = k * (k - 1) / 2 := by
  have h := two_mul_tri k
  omega

theorem tri_le (k : Nat) (h : k ≤ 1000) : tri k ≤ 499500 := by
  have h2 := two_mul_tri k
  have h3 : k * (k - 1) ≤ 1000 * 999 := Nat.mul_le_mul h (by omega)
  omega

theorem specLoop_eq_tri : ∀ k : Nat, k ≤ 1000 → specLoop k = ((tri k : Nat) : Int)
  | 0, _ => rfl
  | n + 1, hk => by
      have ih := specLoop_eq_tri n (by omega)
      show (if n % 1000 = 0 then xor32 (int32wrap (specLoop n + (n : Int))) (n : Int)
            else int32wrap (specLoop n + (n : Int))) = ((tri (n + 1) : Nat) : Int)
      rw [ih]
      by_cases h0 : n = 0
      · subst h0
        decide
      · have hne : n % 1000 ≠ 0 := by omega
        rw [if_neg hne]
        have htri : tri n + n ≤ 499500 := tri_le (n + 1) hk
        have hcast : ((tri n : Nat) : Int) + (n : Int) = ((tri n + n : Nat) : Int) := by
          push_cast
          ring
        rw [hcast, int32wrap_eq_self]
        · rfl
        · omega
        · omega

theorem filter_range_succ : ∀ k : Nat, k ≤ 999 →
    (List.range (k + 1)).filter (fun i => Int.tmod (Int.ofNat i) 1000 == 0) = [0]
  | 0, _ => by decide
  | n + 1, h => by
      have hProp : ¬((n : Int) + 1).tmod 1000 = 0 := by
        have e : ((n : Int) + 1) = Int.ofNat (n + 1) := rfl
        rw [e, tmod_ofNat]
        intro hh
        have h2 : (n + 1) % 1000 = 0 := Int.ofNat.inj hh
        omega
      rw [List.range_succ, List.filter_append, filter_range_succ n (by omega)]
      simp [List.filter_cons, hProp]

/-- C10: for `1 ≤ iterations ≤ 1000`, `heavy_computation` returns exactly the
triangular number `iterations * (iterations - 1) / 2` (no wraparound occurs
in this range) and the only XOR site reached is `i = 0`, where `sum ^= 0`
leaves the accumulator unchanged. -/
theorem C10_triangular_range (iterations : Int) (h1 : 1 ≤ iterations)
    (h2 : iterations ≤ 1000) :
    heavy_computation iterations = iterations * (iterations - 1) / 2 ∧
      xorSites iterations = [0] := by
  obtain ⟨k, rfl⟩ : ∃ k : Nat, iterations = (k : Int) :=
    ⟨iterations.toNat, (Int.toNat_of_nonneg (by omega)).symm⟩
  have hk1 : 1 ≤ k := by exact_mod_cast h1
  have hk2 : k ≤ 1000 := by exact_mod_cast h2
  have e0 : ((k : Int)).toNat = k := Int.toNat_natCast k
  constructor
  · have e1 : heavy_computation (k : Int) = specLoop k := by
      unfold heavy_computation
      rw [e0]
      exact heavy_computation_eq_specLoop k
    rw [e1, specLoop_eq_tri k hk2, tri_eq_div k]
    rw [Int.natCast_div, Nat.cast_mul, Nat.cast_sub hk1, Nat.cast_one]
    norm_num
  · unfold xorSites
    rw [e0]
    obtain ⟨j, rfl⟩ : ∃ j : Nat, k = j + 1 := ⟨k - 1, by omega⟩
    exact filter_range_succ j (by omega)

/-- Witness for C10 at `iterations = 10`. -/
theorem C10_witness :
    (1 : Int) ≤ 10 ∧ (10 : Int) ≤ 1000 ∧
      (heavy_computation 10 = 10 * (10 - 1) / 2 ∧ xorSites 10 = [0]) :=
  ⟨by decide, by decide, C10_triangular_range 10 (by decide) (by decide)⟩
